import Mathlib

/-!
Shallow embedding of the yt-mp3 Telegram bot (Go, `main.go`) and proofs of
the specification's claims about it.

Modelling conventions:
* Go `int64`/`int` become `Int`; Go integer division truncates toward zero
  and faults (panics) on a zero divisor, so it is modelled by `goDiv`,
  which returns `none` exactly when the divisor is zero and otherwise
  truncated division (`Int.tdiv`).
* Side effects (transport sends, subprocess invocations, file removals)
  are modelled as an explicit trace of `Effect`s; the outcomes of the
  external world (yt-dlp, ffmpeg, `os.Stat`, Telegram sends, `test -f`
  probes) are supplied by an `Env` record.
* A Go runtime panic propagates as `none` through the `Option`-valued
  pipeline functions.
-/

namespace YtBot

/-- Global constant `maxFileSize int64 = 49 * 1024 * 1024` from the source. -/
def maxFileSize : Int := 49 * 1024 * 1024

/-- Global constant `bitrateKBps = 128` from the source (despite the name it
is a bitrate in kilobits per second, as its use as `%dK` audio quality and
the division by 8 in `calculateSegmentTime` show). -/
def bitrateKBps : Int := 128

/-- Go integer division: truncated toward zero, and a runtime panic
(modelled as `none`) when the divisor is zero. -/
def goDiv (a b : Int) : Option Int :=
  if b = 0 then none else some (a.tdiv b)

/-- Embedding of `calculateSegmentTime(chunkSize int64, bitrateKbps int) int`:
`chunkSizeKB := chunkSize / 1024`, `bitrateKBps := int64(bitrateKbps / 8)`,
`segmentTime := chunkSizeKB / bitrateKBps`. -/
def calculateSegmentTime (chunkSize : Int) (bitrateKbps : Int) : Option Int := do
  let chunkSizeKB ← goDiv chunkSize 1024
  let rateKBps ← goDiv bitrateKbps 8
  let segmentTime ← goDiv chunkSizeKB rateKBps
  pure segmentTime

theorem goDiv_pos {a b : Int} (hb : b ≠ 0) : goDiv a b = some (a.tdiv b) := by
  simp [goDiv, hb]

theorem goDiv_zero (a : Int) : goDiv a 0 = none := by
  simp [goDiv]

/-- Unfolding of the planner when the inner rate `bitrate/8` is nonzero. -/
theorem calculateSegmentTime_eq {budget bitrate : Int}
    (h : bitrate.tdiv 8 ≠ 0) :
    calculateSegmentTime budget bitrate =
      some ((budget.tdiv 1024).tdiv (bitrate.tdiv 8)) := by
  simp [calculateSegmentTime, goDiv, h]

/-- Unfolding of the planner when `bitrate/8` truncates to zero: the final
division is a Go division by zero, i.e. a runtime panic. -/
theorem calculateSegmentTime_panics {budget bitrate : Int}
    (h : bitrate.tdiv 8 = 0) :
    calculateSegmentTime budget bitrate = none := by
  simp [calculateSegmentTime, goDiv, h]

theorem tdiv_small_bitrate {b : Int} (h1 : -8 < b) (h2 : b < 8) :
    b.tdiv 8 = 0 := by
  interval_cases b <;> decide

theorem tdiv8_eq {b : Int} (h : 0 ≤ b) : b.tdiv 8 = b / 8 :=
  Int.tdiv_eq_ediv h (by norm_num)

theorem ediv8_pos {b : Int} (h : 8 ≤ b) : 0 < b / 8 := by
  have h1 : (8 : Int) / 8 ≤ b / 8 := Int.ediv_le_ediv (by norm_num) h
  norm_num at h1
  linarith

/-- **C1 (amended).** For every `budgetBytes > 0` and `bitrate ≥ 8` the planner
returns `v` maximal for the budget with respect to the code's effective byte
rate `1024 * (bitrate / 8)` (both divisions truncating):
`v * rate ≤ budget < (v+1) * rate`. (For `0 < bitrate < 8` the code instead
faults with an integer division by zero, see the counterexample.) -/
theorem calculateSegmentTime_maximal (budget bitrate : Int)
    (hbud : 0 < budget) (hbit : 8 ≤ bitrate) :
    ∃ v, calculateSegmentTime budget bitrate = some v ∧
      v * (1024 * bitrate.tdiv 8) ≤ budget ∧
      budget < (v + 1) * (1024 * bitrate.tdiv 8) := by
  have hb0 : (0 : Int) ≤ bitrate := by linarith
  have hk : bitrate.tdiv 8 = bitrate / 8 := tdiv8_eq hb0
  have hkpos : 0 < bitrate / 8 := ediv8_pos hbit
  have hK : budget.tdiv 1024 = budget / 1024 :=
    Int.tdiv_eq_ediv (le_of_lt hbud) (by norm_num)
  have hKnn : 0 ≤ budget / 1024 := Int.ediv_nonneg (le_of_lt hbud) (by norm_num)
  have hv : (budget / 1024).tdiv (bitrate / 8) = budget / 1024 / (bitrate / 8) :=
    Int.tdiv_eq_ediv hKnn (le_of_lt hkpos)
  have hkne : bitrate.tdiv 8 ≠ 0 := by rw [hk]; exact ne_of_gt hkpos
  refine ⟨budget / 1024 / (bitrate / 8), ?_, ?_, ?_⟩
  · rw [calculateSegmentTime_eq hkne, hK, hk, hv]
  · have h1 : budget / 1024 / (bitrate / 8) * (bitrate / 8) ≤ budget / 1024 :=
      Int.ediv_mul_le _ (ne_of_gt hkpos)
    have h2 : budget / 1024 * 1024 ≤ budget := Int.ediv_mul_le _ (by norm_num)
    have h3 : budget / 1024 / (bitrate / 8) * (bitrate / 8) * 1024 ≤
        budget / 1024 * 1024 := mul_le_mul_of_nonneg_right h1 (by norm_num)
    rw [hk]
    nlinarith
  · have h1 : budget / 1024 <
        (budget / 1024 / (bitrate / 8) + 1) * (bitrate / 8) :=
      Int.lt_ediv_add_one_mul_self _ hkpos
    have h2 : budget < (budget / 1024 + 1) * 1024 :=
      Int.lt_ediv_add_one_mul_self _ (by norm_num)
    have h3 : budget / 1024 + 1 ≤
        (budget / 1024 / (bitrate / 8) + 1) * (bitrate / 8) :=
      Int.add_one_le_iff.mpr h1
    have h4 : (budget / 1024 + 1) * 1024 ≤
        (budget / 1024 / (bitrate / 8) + 1) * (bitrate / 8) * 1024 :=
      mul_le_mul_of_nonneg_right h3 (by norm_num)
    rw [hk]
    nlinarith

/-- Witness for C1's amended theorem at `budget = 100000`, `bitrate = 128`. -/
theorem calculateSegmentTime_maximal_witness :
    ∃ v, calculateSegmentTime 100000 128 = some v ∧
      v * (1024 * Int.tdiv 128 8) ≤ 100000 ∧
      (100000 : Int) < (v + 1) * (1024 * Int.tdiv 128 8) :=
  calculateSegmentTime_maximal 100000 128 (by decide) (by decide)

/-- **C1 (counterexample).** At `budgetBytes = 1000000 > 0` and
`bitrate = 1 > 0` the planner does not return any value: `1 / 8` truncates to
`0` and the final Go division faults (runtime panic), refuting the claim that
for every positive budget and bitrate a maximal duration is returned. -/
theorem calculateSegmentTime_bitrate_one_panics :
    calculateSegmentTime 1000000 1 = none := by decide

/-- **C4 (amended).** The planner has no error signalling: for any bitrate
with `-8 < bitrate < 8` (including zero) the division `chunkSizeKB / (bitrate/8)`
is a Go division by zero and the computation faults instead of returning
`InvalidConfiguration`; and whenever the budget is below the effective rate
`1024 * (bitrate / 8)` it returns `0` rather than a `BudgetTooSmall` error. -/
theorem calculateSegmentTime_no_guards :
    (∀ budget bitrate : Int, -8 < bitrate → bitrate < 8 →
        calculateSegmentTime budget bitrate = none) ∧
    (∀ budget bitrate : Int, 8 ≤ bitrate → 0 ≤ budget →
        budget < 1024 * bitrate.tdiv 8 →
        calculateSegmentTime budget bitrate = some 0) := by
  constructor
  · intro budget bitrate h1 h2
    exact calculateSegmentTime_panics (tdiv_small_bitrate h1 h2)
  · intro budget bitrate hbit hbud hlt
    have hb0 : (0 : Int) ≤ bitrate := by linarith
    have hk : bitrate.tdiv 8 = bitrate / 8 := tdiv8_eq hb0
    have hkpos : 0 < bitrate / 8 := ediv8_pos hbit
    have hkne : bitrate.tdiv 8 ≠ 0 := by rw [hk]; exact ne_of_gt hkpos
    rw [calculateSegmentTime_eq hkne]
    have hK : budget.tdiv 1024 = budget / 1024 :=
      Int.tdiv_eq_ediv hbud (by norm_num)
    have hKnn : 0 ≤ budget / 1024 := Int.ediv_nonneg hbud (by norm_num)
    have hKlt : budget / 1024 < bitrate / 8 := by
      have h2 : budget / 1024 * 1024 ≤ budget := Int.ediv_mul_le _ (by norm_num)
      rw [hk] at hlt
      linarith
    rw [hK, hk, Int.tdiv_eq_ediv hKnn (le_of_lt hkpos),
      Int.ediv_eq_zero_of_lt hKnn hKlt]

/-- Witness for C4's amended theorem: bitrate `1` faults; a 1000-byte budget
at 128 kbps yields duration `0` (not an error). -/
theorem calculateSegmentTime_no_guards_witness :
    calculateSegmentTime 100 1 = none ∧ calculateSegmentTime 1000 128 = some 0 :=
  ⟨calculateSegmentTime_no_guards.1 100 1 (by decide) (by decide),
   calculateSegmentTime_no_guards.2 1000 128 (by decide) (by decide) (by decide)⟩

/-- **C4 (counterexample).** At `chunkSize = 5000`, `bitrate = -16` the planner
returns the negative duration `-2` (`5000/1024 = 4`, `-16/8 = -2`,
`4 / -2 = -2`), refuting both "fails with InvalidConfiguration for every zero
or negative rate" and "never returns 0 or a negative duration". -/
theorem calculateSegmentTime_negative_rate :
    calculateSegmentTime 5000 (-16) = some (-2) := by decide

/-! ## Effect-trace model of the pipeline

Side-effecting functions are embedded as pure functions that return the
ordered list of effects they perform together with their Go return value.
The external world's responses are supplied by an `Env`. -/

/-- One observable side effect of the pipeline. -/
inductive Effect where
  | sendText : Int → String → Effect
  | sendAudio : Int → String → Effect
  | removeFile : String → Effect
  | runYtDlp : String → Effect
  | runFfmpeg : String → Int → Effect
  | probeFile : String → Effect
deriving DecidableEq

/-- Responses of the external world: Telegram audio sends (`none` = success,
`some e` = error text), yt-dlp and ffmpeg exit status and diagnostic text,
`os.Stat` results, `test -f` probes, and the wall-clock timestamp used for
filename generation. -/
structure Env where
  sendAudioResult : String → Option String
  ytDlpOk : Bool
  ytDlpErr : String
  ffmpegOk : Bool
  ffmpegErr : String
  fileSize : String → Option Int
  statErr : String
  partExistsAt : String → Bool
  timestamp : Int

/-- Go's `%03d`: decimal digits left-padded with zeros to width at least 3. -/
def pad3 (i : Nat) : String :=
  let s := toString i
  if s.length < 3 then String.mk (List.replicate (3 - s.length) '0') ++ s else s

/-- The part filename pattern `%s.part%03d.mp3` of `splitFile`. -/
def partName (filePath : String) (i : Nat) : String :=
  filePath ++ ".part" ++ pad3 i ++ ".mp3"

/-- Embedding of `sendFile`: send the audio, then `os.Remove` the local file
unconditionally, and return the send's error value. -/
def sendFile (env : Env) (filePath : String) (chatID : Int) :
    List Effect × Option String :=
  ([Effect.sendAudio chatID filePath, Effect.removeFile filePath],
   env.sendAudioResult filePath)

/-- The part-discovery loop of `splitFile`: probe `filePath.part000.mp3`,
`filePath.part001.mp3`, ... and stop at the first missing file. The Go loop
is unbounded; `fuel` bounds the recursion, and theorems assume a missing
index below the fuel. -/
def discoverLoop (env : Env) (filePath : String) :
    Nat → Nat → List Effect × List String
  | 0, _ => ([], [])
  | fuel + 1, i =>
    let name := partName filePath i
    if env.partExistsAt name then
      let r := discoverLoop env filePath fuel (i + 1)
      (Effect.probeFile name :: r.1, name :: r.2)
    else ([Effect.probeFile name], [])

/-- Embedding of `splitFile`: compute the segment time (a Go panic, `none`,
if that faults), invoke ffmpeg, and on success discover the parts; an ffmpeg
failure is returned as `Except.error`. -/
def splitFile (env : Env) (fuel : Nat) (filePath : String)
    (chunkSize bitrateKbps : Int) :
    Option (List Effect × Except String (List String)) :=
  match calculateSegmentTime chunkSize bitrateKbps with
  | none => none
  | some segmentTime =>
    if env.ffmpegOk then
      let d := discoverLoop env filePath fuel 0
      some (Effect.runFfmpeg filePath segmentTime :: d.1, Except.ok d.2)
    else
      some ([Effect.runFfmpeg filePath segmentTime], Except.error env.ffmpegErr)

/-- The part-delivery loop of `checkAndSendFile`: send each part in order via
`sendFile`; on the first failing send, stop and return the wrapped error
`"error sending file part: <cause>"`. -/
def sendPartsLoop (env : Env) (chatID : Int) :
    List String → List Effect × Option String
  | [] => ([], none)
  | p :: rest =>
    let s := sendFile env p chatID
    match s.2 with
    | some e => (s.1, some ("error sending file part: " ++ e))
    | none =>
      let r := sendPartsLoop env chatID rest
      (s.1 ++ r.1, r.2)

/-- Embedding of `checkAndSendFile`: stat the file; if its size exceeds
`maxFileSize`, split and send the parts, otherwise send the file directly. -/
def checkAndSendFile (env : Env) (fuel : Nat) (filePath : String)
    (chatID : Int) : Option (List Effect × Option String) :=
  match env.fileSize filePath with
  | none => some ([], some ("could not check file size: " ++ env.statErr))
  | some size =>
    if maxFileSize < size then
      match splitFile env fuel filePath maxFileSize bitrateKBps with
      | none => none
      | some (tr, Except.error e) =>
          some (tr, some ("error splitting file: " ++ e))
      | some (tr, Except.ok parts) =>
          let r := sendPartsLoop env chatID parts
          some (tr ++ r.1, r.2)
    else
      let s := sendFile env filePath chatID
      match s.2 with
      | some e => some (s.1, some ("error sending file: " ++ e))
      | none => some (s.1, none)

/-- The filename `download_<chatID>_<timestamp>.mp3` from `downloadMp3`. -/
def mp3Name (chatID timestamp : Int) : String :=
  "download_" ++ toString chatID ++ "_" ++ toString timestamp ++ ".mp3"

/-- The filename `download_<chatID>_<timestamp>.m4a` from `downloadMp3`. -/
def m4aName (chatID timestamp : Int) : String :=
  "download_" ++ toString chatID ++ "_" ++ toString timestamp ++ ".m4a"

/-- Embedding of `downloadMp3`: invoke yt-dlp; on success return the mp3 and
m4a paths derived from the chat id and timestamp. -/
def downloadMp3 (env : Env) (url : String) (chatID : Int) :
    List Effect × Except String (String × String) :=
  if env.ytDlpOk then
    ([Effect.runYtDlp url],
     Except.ok (mp3Name chatID env.timestamp, m4aName chatID env.timestamp))
  else
    ([Effect.runYtDlp url], Except.error env.ytDlpErr)

/-- Go's `unicode.IsSpace` on the characters relevant to `strings.TrimSpace`:
space, tab, newline, vertical tab, form feed, carriage return, NEL, NBSP. -/
def isGoSpace (c : Char) : Bool :=
  c = ' ' || c = '\t' || c = '\n' || c = '\r' ||
    c = Char.ofNat 11 || c = Char.ofNat 12 ||
    c = Char.ofNat 0x85 || c = Char.ofNat 0xA0

/-- Embedding of `strings.TrimSpace`: drop leading and trailing whitespace. -/
def trimSpace (s : String) : String :=
  String.mk (((s.data.dropWhile isGoSpace).reverse.dropWhile isGoSpace).reverse)

/-- `needle` occurs at the head of the second list. -/
def startsWithList : List Char → List Char → Bool
  | [], _ => true
  | _ :: _, [] => false
  | a :: as, b :: bs => a = b && startsWithList as bs

/-- Embedding of `strings.Contains`: the needle occurs somewhere in the
haystack. -/
def containsList : List Char → List Char → Bool
  | [], needle => startsWithList needle []
  | a :: t, needle => startsWithList needle (a :: t) || containsList t needle

def goContains (s sub : String) : Bool := containsList s.data sub.data

/-- Embedding of `isValidYouTubeURL`:
`strings.Contains(url, "youtube.com/watch") || strings.Contains(url, "youtu.be/")`. -/
def isValidYouTubeURL (url : String) : Bool :=
  goContains url "youtube.com/watch" || goContains url "youtu.be/"

def validationReply : String := "Please send a valid YouTube video URL."

def ackReply : String := "Starting to process your request..."

/-- Embedding of `handleMessage`: trim the text, validate it, acknowledge,
download, hand to `checkAndSendFile`, report errors to the chat, and finally
remove the m4a path. -/
def handleMessage (env : Env) (fuel : Nat) (text : String) (chatID : Int) :
    Option (List Effect) :=
  let url := trimSpace text
  if !isValidYouTubeURL url then
    some [Effect.sendText chatID validationReply]
  else
    let dl := downloadMp3 env url chatID
    match dl.2 with
    | Except.error e =>
        some (Effect.sendText chatID ackReply :: dl.1 ++
          [Effect.sendText chatID ("Error downloading mp3: " ++ e)])
    | Except.ok (mp3FilePath, m4aFilePath) =>
      match checkAndSendFile env fuel mp3FilePath chatID with
      | none => none
      | some (tr, r) =>
        let errTr := match r with
          | some e => [Effect.sendText chatID ("Error sending mp3: " ++ e)]
          | none => []
        some (Effect.sendText chatID ackReply :: dl.1 ++ tr ++ errTr ++
          [Effect.removeFile m4aFilePath])

/-- The planner value at the constants of the source: a 49 MiB chunk budget
at 128 kbps gives 3136-second segments. -/
theorem calcSeg_const : calculateSegmentTime maxFileSize bitrateKBps = some 3136 := by
  decide

/-- A base environment for concrete witnesses: everything succeeds, no part
files exist, all stats report `maxFileSize`. -/
def env0 : Env where
  sendAudioResult := fun _ => none
  ytDlpOk := true
  ytDlpErr := ""
  ffmpegOk := true
  ffmpegErr := ""
  fileSize := fun _ => some maxFileSize
  statErr := ""
  partExistsAt := fun _ => false
  timestamp := 0

/-- **C5.** `sendFile` deletes the local file immediately after the send
attempt, regardless of the send outcome: its effect trace is always the send
followed by the removal, and the send's error (if any) is returned unchanged. -/
theorem sendFile_always_removes (env : Env) (filePath : String) (chatID : Int) :
    (sendFile env filePath chatID).1 =
      [Effect.sendAudio chatID filePath, Effect.removeFile filePath] ∧
    (sendFile env filePath chatID).2 = env.sendAudioResult filePath :=
  ⟨rfl, rfl⟩

/-- **C6.** The size gate is strict: a file of size exactly `maxFileSize` is
sent directly (trace is exactly send-then-remove of the file itself, no
ffmpeg), while a file of size `maxFileSize + 1` is routed to splitting (the
trace begins with the ffmpeg segmentation call). -/
theorem checkAndSendFile_boundary :
    (∀ (env : Env) (fuel : Nat) (f : String) (c : Int),
      env.fileSize f = some maxFileSize →
      checkAndSendFile env fuel f c =
        some ([Effect.sendAudio c f, Effect.removeFile f],
          (env.sendAudioResult f).map (fun e => "error sending file: " ++ e))) ∧
    (∀ (env : Env) (fuel : Nat) (f : String) (c : Int),
      env.fileSize f = some (maxFileSize + 1) →
      ∃ tr r, checkAndSendFile env fuel f c = some (tr, r) ∧
        tr.head? = some (Effect.runFfmpeg f 3136)) := by
  constructor
  · intro env fuel f c h
    unfold checkAndSendFile
    rw [h]
    simp only [lt_irrefl, if_neg (lt_irrefl maxFileSize)]
    cases henv : env.sendAudioResult f <;> simp [sendFile, henv]
  · intro env fuel f c h
    unfold checkAndSendFile splitFile
    rw [h, calcSeg_const]
    have hlt : maxFileSize < maxFileSize + 1 := by linarith
    simp only [if_pos hlt]
    cases hff : env.ffmpegOk <;> simp [hff]

/-- Witness for C6 at concrete environments: a file of exactly the budget is
sent directly; one byte over is handed to ffmpeg. -/
theorem checkAndSendFile_boundary_witness :
    checkAndSendFile env0 1 "f.mp3" 7 =
      some ([Effect.sendAudio 7 "f.mp3", Effect.removeFile "f.mp3"],
        ((env0.sendAudioResult "f.mp3").map (fun e => "error sending file: " ++ e))) ∧
    ∃ tr r,
      checkAndSendFile { env0 with fileSize := fun _ => some (maxFileSize + 1) }
        1 "f.mp3" 7 = some (tr, r) ∧
      tr.head? = some (Effect.runFfmpeg "f.mp3" 3136) :=
  ⟨checkAndSendFile_boundary.1 env0 1 "f.mp3" 7 rfl,
   checkAndSendFile_boundary.2 { env0 with fileSize := fun _ => some (maxFileSize + 1) }
     1 "f.mp3" 7 rfl⟩

/-- **C2 (amended).** `splitFile` returns an error only when the external
ffmpeg call reports one: whenever ffmpeg succeeds it returns `Except.ok`,
and in particular when zero parts are discovered it returns success with the
empty part list rather than a `SegmentationFailure`. -/
theorem splitFile_ok_despite_no_parts :
    (∀ (env : Env) (fuel : Nat) (f : String), env.ffmpegOk = true →
      ∃ tr parts, splitFile env fuel f maxFileSize bitrateKBps =
        some (tr, Except.ok parts)) ∧
    (∀ (env : Env) (fuel : Nat) (f : String), env.ffmpegOk = true →
      (∀ p, env.partExistsAt p = false) →
      ∃ tr, splitFile env fuel f maxFileSize bitrateKBps =
        some (tr, Except.ok [])) := by
  constructor
  · intro env fuel f h
    unfold splitFile
    rw [calcSeg_const]
    simp [h]
  · intro env fuel f h hnone
    have hd : (discoverLoop env f fuel 0).2 = [] := by
      cases fuel with
      | zero => rfl
      | succ n => simp [discoverLoop, hnone]
    unfold splitFile
    rw [calcSeg_const]
    simp only [h, if_pos]
    refine ⟨Effect.runFfmpeg f 3136 :: (discoverLoop env f fuel 0).1, ?_⟩
    simp [hd]

/-- Witness for C2's amended theorem at a concrete all-success environment
with no part files on disk. -/
theorem splitFile_ok_despite_no_parts_witness :
    (∃ tr parts, splitFile env0 3 "g.mp3" maxFileSize bitrateKBps =
      some (tr, Except.ok parts)) ∧
    (∃ tr, splitFile env0 4 "h.mp3" maxFileSize bitrateKBps =
      some (tr, Except.ok [])) :=
  ⟨splitFile_ok_despite_no_parts.1 env0 3 "g.mp3" rfl,
   splitFile_ok_despite_no_parts.2 env0 4 "h.mp3" rfl (fun _ => rfl)⟩

/-- **C2 (counterexample).** With ffmpeg succeeding but no part file on disk,
`splitFile` returns success with the empty part list — not a
`SegmentationFailure` — refuting "it never returns success with an empty part
set". -/
theorem splitFile_empty_success :
    splitFile env0 3 "f.mp3" maxFileSize bitrateKBps =
      some ([Effect.runFfmpeg "f.mp3" 3136,
             Effect.probeFile (partName "f.mp3" 0)], Except.ok []) := rfl

/-- **C8.** If the trimmed input fails URL validation, `handleMessage` replies
with exactly the validation message and performs no further work: the trace
is the single reply, and in particular yt-dlp (acquisition) is never run. -/
theorem handleMessage_invalid_short_circuit (env : Env) (fuel : Nat)
    (text : String) (c : Int)
    (h : isValidYouTubeURL (trimSpace text) = false) :
    handleMessage env fuel text c = some [Effect.sendText c validationReply] ∧
    ∀ tr, handleMessage env fuel text c = some tr →
      ∀ u, Effect.runYtDlp u ∉ tr := by
  have h1 : handleMessage env fuel text c =
      some [Effect.sendText c validationReply] := by
    unfold handleMessage
    simp [h]
  refine ⟨h1, ?_⟩
  intro tr htr u
  rw [h1] at htr
  cases htr
  simp

/-- Witness for C8 at the spec's scenario A input `"not a url"`. -/
theorem handleMessage_invalid_witness :
    handleMessage env0 1 "not a url" 7 =
      some [Effect.sendText 7 validationReply] ∧
    ∀ tr, handleMessage env0 1 "not a url" 7 = some tr →
      ∀ u, Effect.runYtDlp u ∉ tr :=
  handleMessage_invalid_short_circuit env0 1 "not a url" 7 (by decide)

/-- The send-then-remove effect pair emitted for each delivered artifact. -/
def deliveryEffects (chatID : Int) (parts : List String) : List Effect :=
  parts.flatMap (fun p => [Effect.sendAudio chatID p, Effect.removeFile p])

/-- **C3 (amended).** In the part-send loop, if the artifact after `pre` is
the first whose send fails (index `k = pre.length`), then nothing after it is
sent — the trace covers exactly `pre ++ [pk]` — and the returned error is the
failed send's cause wrapped as `"error sending file part: <cause>"`, which
does not identify the index `k`. -/
theorem sendPartsLoop_first_failure (env : Env) (c : Int)
    (pre : List String) (pk : String) (rest : List String) (e : String)
    (hpre : ∀ p ∈ pre, env.sendAudioResult p = none)
    (hk : env.sendAudioResult pk = some e) :
    (sendPartsLoop env c (pre ++ pk :: rest)).2 =
      some ("error sending file part: " ++ e) ∧
    (sendPartsLoop env c (pre ++ pk :: rest)).1 =
      deliveryEffects c (pre ++ [pk]) := by
  induction pre with
  | nil =>
    simp [sendPartsLoop, sendFile, hk, deliveryEffects]
  | cons a as ih =>
    have ha : env.sendAudioResult a = none := hpre a (by simp)
    have ih' := ih (fun p hp => hpre p (by simp [hp]))
    constructor
    · simpa [sendPartsLoop, sendFile, ha] using ih'.1
    · simpa [sendPartsLoop, sendFile, ha, deliveryEffects] using ih'.2

/-- Witness for C3's amended theorem: with `"b"` the first failing part of
`["a", "b", "c"]`, only `a` and `b` are touched and the wrapped cause comes
back. -/
theorem sendPartsLoop_first_failure_witness :
    (sendPartsLoop
        { env0 with sendAudioResult := fun p => if p = "b" then some "boom" else none }
        7 (["a"] ++ "b" :: ["c"])).2 =
      some ("error sending file part: " ++ "boom") ∧
    (sendPartsLoop
        { env0 with sendAudioResult := fun p => if p = "b" then some "boom" else none }
        7 (["a"] ++ "b" :: ["c"])).1 =
      deliveryEffects 7 (["a"] ++ ["b"]) :=
  sendPartsLoop_first_failure
    { env0 with sendAudioResult := fun p => if p = "b" then some "boom" else none }
    7 ["a"] "b" ["c"] "boom" (by decide) (by decide)

/-- **C3 (counterexample).** Two runs over the same five parts, one failing
first at index 1 and one failing first at index 2 with the same underlying
cause, return *identical* errors — so the returned error cannot identify
which index failed, refuting "the returned DeliveryFailure identifies k as
the failed index". -/
theorem sendPartsLoop_error_lacks_index :
    (sendPartsLoop
        { env0 with sendAudioResult := fun p => if p = "b" then some "boom" else none }
        7 ["a", "b", "c", "d", "e"]).2 =
      some "error sending file part: boom" ∧
    (sendPartsLoop
        { env0 with sendAudioResult := fun p => if p = "c" then some "boom" else none }
        7 ["a", "b", "c", "d", "e"]).2 =
      some "error sending file part: boom" := ⟨rfl, rfl⟩

/-- The sequence of audio paths handed to the transport, in trace order. -/
def audioSends : List Effect → List String
  | [] => []
  | Effect.sendAudio _ p :: t => p :: audioSends t
  | _ :: t => audioSends t

theorem audioSends_deliveryEffects (c : Int) :
    ∀ parts : List String, audioSends (deliveryEffects c parts) = parts := by
  intro parts
  induction parts with
  | nil => rfl
  | cons a as ih =>
    have h : deliveryEffects c (a :: as) =
        Effect.sendAudio c a :: Effect.removeFile a :: deliveryEffects c as := by
      simp [deliveryEffects]
    rw [h]
    show a :: audioSends (deliveryEffects c as) = a :: as
    rw [ih]

theorem sendPartsLoop_all_success (env : Env) (c : Int) :
    ∀ parts : List String, (∀ p ∈ parts, env.sendAudioResult p = none) →
      sendPartsLoop env c parts = (deliveryEffects c parts, none) := by
  intro parts
  induction parts with
  | nil => intro _; rfl
  | cons a as ih =>
    intro h
    have ha : env.sendAudioResult a = none := h a (by simp)
    have ih' := ih (fun p hp => h p (by simp [hp]))
    simp [sendPartsLoop, sendFile, ha, ih', deliveryEffects]

/-- The discovery loop, started at index `j` with `k` consecutive parts
present and the `(j+k)`-th missing, returns precisely the part names of
indices `j, j+1, ..., j+k-1`. -/
theorem discoverLoop_range (env : Env) (f : String) :
    ∀ (fuel k j : Nat), k < fuel →
      (∀ i, i < k → env.partExistsAt (partName f (j + i)) = true) →
      env.partExistsAt (partName f (j + k)) = false →
      (discoverLoop env f fuel j).2 = (List.range' j k).map (partName f) := by
  intro fuel
  induction fuel with
  | zero => intro k j hk _ _; omega
  | succ n ih =>
    intro k j hk hall hmiss
    cases k with
    | zero =>
      have h0 : env.partExistsAt (partName f j) = false := by simpa using hmiss
      simp [discoverLoop, h0]
    | succ l =>
      have h0 : env.partExistsAt (partName f j) = true := by
        have := hall 0 (by omega)
        simpa using this
      have hall' : ∀ i, i < l →
          env.partExistsAt (partName f (j + 1 + i)) = true := by
        intro i hi
        have e : j + 1 + i = j + (i + 1) := by omega
        rw [e]
        exact hall (i + 1) (by omega)
      have hmiss' : env.partExistsAt (partName f (j + 1 + l)) = false := by
        have e : j + 1 + l = j + (l + 1) := by omega
        rw [e]
        exact hmiss
      have ihr := ih l (j + 1) (by omega) hall' hmiss'
      simp [discoverLoop, h0, ihr, List.range'_succ]

/-- **C7.** Discovery probes indices `0, 1, 2, ...`, halts exactly at the
first missing index `m`, and returns the gap-free, strictly increasing part
list `partName f 0, ..., partName f (m-1)`; and the delivery loop sends an
(arbitrary) part list to the transport strictly in list order, one at a
time. -/
theorem split_discovery_ordered_delivery :
    (∀ (env : Env) (f : String) (fuel m : Nat), m < fuel →
      (∀ i, i < m → env.partExistsAt (partName f i) = true) →
      env.partExistsAt (partName f m) = false →
      (discoverLoop env f fuel 0).2 = (List.range m).map (partName f)) ∧
    (∀ (env : Env) (c : Int) (parts : List String),
      (∀ p ∈ parts, env.sendAudioResult p = none) →
      audioSends (sendPartsLoop env c parts).1 = parts) := by
  constructor
  · intro env f fuel m hm hall hmiss
    have h := discoverLoop_range env f fuel m 0 hm
      (by intro i hi; simpa using hall i hi) (by simpa using hmiss)
    rw [h, List.range_eq_range']
  · intro env c parts h
    rw [sendPartsLoop_all_success env c parts h]
    exact audioSends_deliveryEffects c parts

/-- Witness for C7: one part on disk is discovered as exactly `[part 0]`, and
a two-part delivery sends the parts in list order. -/
theorem split_discovery_ordered_delivery_witness :
    (discoverLoop { env0 with partExistsAt := fun p => p == partName "f.mp3" 0 }
        "f.mp3" 2 0).2 = (List.range 1).map (partName "f.mp3") ∧
    audioSends (sendPartsLoop env0 7 ["x", "y"]).1 = ["x", "y"] :=
  ⟨split_discovery_ordered_delivery.1
      { env0 with partExistsAt := fun p => p == partName "f.mp3" 0 }
      "f.mp3" 2 1 (by decide) (by decide) (by decide),
   split_discovery_ordered_delivery.2 env0 7 ["x", "y"] (by decide)⟩

/-- `needle` occurs contiguously somewhere inside `haystack`. -/
def occursIn (needle haystack : List Char) : Prop :=
  ∃ l r, haystack = l ++ needle ++ r

theorem startsWithList_iff (n : List Char) :
    ∀ h, startsWithList n h = true ↔ ∃ r, h = n ++ r := by
  induction n with
  | nil => intro h; simp [startsWithList]
  | cons a as ih =>
    intro h
    cases h with
    | nil => simp [startsWithList]
    | cons b bs =>
      simp only [startsWithList, Bool.and_eq_true, decide_eq_true_eq, ih bs]
      constructor
      · rintro ⟨rfl, r, rfl⟩
        exact ⟨r, rfl⟩
      · rintro ⟨r, hr⟩
        injection hr with h1 h2
        exact ⟨h1.symm, r, h2⟩

theorem containsList_iff (n : List Char) :
    ∀ h, containsList h n = true ↔ occursIn n h := by
  intro h
  induction h with
  | nil =>
    simp only [containsList, startsWithList_iff, occursIn]
    constructor
    · rintro ⟨r, hr⟩
      exact ⟨[], r, hr⟩
    · rintro ⟨l, r, hr⟩
      have h0 := hr.symm
      rw [List.append_assoc] at h0
      rcases List.append_eq_nil.mp h0 with ⟨rfl, h2⟩
      exact ⟨r, by simpa using h2.symm⟩
  | cons a t ih =>
    simp only [containsList, Bool.or_eq_true, startsWithList_iff, ih, occursIn]
    constructor
    · rintro (⟨r, hr⟩ | ⟨l, r, hr⟩)
      · exact ⟨[], r, hr⟩
      · exact ⟨a :: l, r, by rw [List.cons_append, List.cons_append, ← hr]⟩
    · rintro ⟨l, r, hr⟩
      cases l with
      | nil => exact Or.inl ⟨r, by simpa using hr⟩
      | cons b bs =>
        rw [List.cons_append, List.cons_append] at hr
        injection hr with h1 h2
        exact Or.inr ⟨bs, r, by rw [h2, List.append_assoc]⟩

/-- **C10.** Validation accepts exactly those inputs whose trimmed text
contains `"youtube.com/watch"` or `"youtu.be/"` as a substring at any
position; in particular an URL of a different host that embeds `"youtu.be/"`
in its query string is accepted. -/
theorem isValidYouTubeURL_substring_semantics :
    (∀ s : String, isValidYouTubeURL (trimSpace s) = true ↔
      (occursIn ("youtube.com/watch".data) (trimSpace s).data ∨
       occursIn ("youtu.be/".data) (trimSpace s).data)) ∧
    isValidYouTubeURL
      (trimSpace "https://evil.example/page?next=youtu.be/abc") = true := by
  constructor
  · intro s
    simp only [isValidYouTubeURL, goContains, Bool.or_eq_true, containsList_iff]
  · decide

/-- Witness for C10: a trimmed input accepted by the validator does contain
one of the two substrings. -/
theorem isValidYouTubeURL_substring_semantics_witness :
    occursIn ("youtube.com/watch".data)
      (trimSpace " youtube.com/watch?v=1 ").data ∨
    occursIn ("youtu.be/".data) (trimSpace " youtube.com/watch?v=1 ").data :=
  (isValidYouTubeURL_substring_semantics.1 " youtube.com/watch?v=1 ").mp
    (by decide)

theorem removeFile_not_mem_discover (env : Env) (f : String) (x : String) :
    ∀ fuel j, Effect.removeFile x ∉ (discoverLoop env f fuel j).1 := by
  intro fuel
  induction fuel with
  | zero => intro j; simp [discoverLoop]
  | succ n ih =>
    intro j
    by_cases hp : env.partExistsAt (partName f j) = true
    · simp [discoverLoop, hp, ih (j + 1)]
    · simp at hp
      simp [discoverLoop, hp]

theorem mem_discover_is_part (env : Env) (f : String) :
    ∀ fuel j p, p ∈ (discoverLoop env f fuel j).2 → ∃ i, p = partName f i := by
  intro fuel
  induction fuel with
  | zero => intro j p hp; simp [discoverLoop] at hp
  | succ n ih =>
    intro j p hp
    by_cases hx : env.partExistsAt (partName f j) = true
    · simp [discoverLoop, hx] at hp
      rcases hp with rfl | hp
      · exact ⟨j, rfl⟩
      · exact ih (j + 1) p hp
    · simp at hx
      simp [discoverLoop, hx] at hp

theorem removeFile_mem_sendPartsLoop (env : Env) (c : Int) :
    ∀ parts x, Effect.removeFile x ∈ (sendPartsLoop env c parts).1 →
      x ∈ parts := by
  intro parts
  induction parts with
  | nil => intro x hx; simp [sendPartsLoop] at hx
  | cons a as ih =>
    intro x hx
    simp only [sendPartsLoop, sendFile] at hx
    cases hs : env.sendAudioResult a with
    | some e =>
      rw [hs] at hx
      simp at hx
      simp [hx]
    | none =>
      rw [hs] at hx
      simp at hx
      rcases hx with hx | hx
      · simp [hx]
      · exact List.mem_cons_of_mem a (ih x hx)

/-- In the split path (a file strictly over budget), every `removeFile` in
the trace of `checkAndSendFile` is of a part file `<f>.partNNN.mp3`, never
of the source `f` itself. -/
theorem checkAndSendFile_split_removes_only_parts (env : Env) (fuel : Nat)
    (f : String) (c : Int) (sz : Int)
    (hsz : env.fileSize f = some sz) (hbig : maxFileSize < sz) :
    ∀ tr r x, checkAndSendFile env fuel f c = some (tr, r) →
      Effect.removeFile x ∈ tr → ∃ i, x = partName f i := by
  intro tr r x hc hm
  unfold checkAndSendFile splitFile at hc
  rw [hsz] at hc
  cases hff : env.ffmpegOk with
  | false =>
    simp [if_pos hbig, calcSeg_const, hff] at hc
    rcases hc with ⟨hc1, hc2⟩
    subst hc1
    simp at hm
  | true =>
    simp [if_pos hbig, calcSeg_const, hff] at hc
    rcases hc with ⟨hc1, hc2⟩
    subst hc1
    simp at hm
    rcases hm with hm | hm
    · exact absurd hm (removeFile_not_mem_discover env f x fuel 0)
    · exact mem_discover_is_part env f fuel 0 x
        (removeFile_mem_sendPartsLoop env c _ x hm)

theorem partName_ne_self (f : String) (i : Nat) : partName f i ≠ f := by
  intro h
  have hd := congrArg (fun s => s.data.length) h
  have l1 : ".part".data.length = 5 := rfl
  have l2 : ".mp3".data.length = 4 := rfl
  simp only [partName, String.data_append, List.length_append, l1, l2] at hd
  omega

theorem mp3Name_ne_m4aName (c t : Int) : mp3Name c t ≠ m4aName c t := by
  intro h
  have hd := congrArg String.data h
  have e1 : ".m4a".data = ['.', 'm', '4', 'a'] := rfl
  have e2 : ".mp3".data = ['.', 'm', 'p', '3'] := rfl
  simp only [mp3Name, m4aName, String.data_append, e1, e2,
    List.append_assoc, List.append_cancel_left_eq] at hd
  exact absurd hd (by decide)

/-- **C9.** On the split path (source over budget, acquisition succeeded,
all parts delivered successfully), `handleMessage` never removes the
pre-split source file: the only removals are the part files and the
intermediate `.m4a` path, so the source artifact remains on disk. -/
theorem handleMessage_split_preserves_source (env : Env) (fuel : Nat)
    (text : String) (c : Int) (sz : Int)
    (hvalid : isValidYouTubeURL (trimSpace text) = true)
    (hdl : env.ytDlpOk = true)
    (hsz : env.fileSize (mp3Name c env.timestamp) = some sz)
    (hbig : maxFileSize < sz)
    (_hsend : ∀ p, env.sendAudioResult p = none) :
    ∀ tr, handleMessage env fuel text c = some tr →
      Effect.removeFile (mp3Name c env.timestamp) ∉ tr := by
  intro tr htr
  unfold handleMessage downloadMp3 at htr
  simp only [hvalid, hdl, Bool.not_true, Bool.false_eq_true, if_false,
    if_true] at htr
  cases hcheck : checkAndSendFile env fuel (mp3Name c env.timestamp) c with
  | none => rw [hcheck] at htr; cases htr
  | some pr =>
    obtain ⟨tr2, r⟩ := pr
    rw [hcheck] at htr
    have hremove : ∀ x, Effect.removeFile x ∈ tr2 →
        ∃ i, x = partName (mp3Name c env.timestamp) i :=
      fun x hx => checkAndSendFile_split_removes_only_parts env fuel
        (mp3Name c env.timestamp) c sz hsz hbig tr2 r x hcheck hx
    cases r with
    | none =>
      simp only [Option.some.injEq] at htr
      subst htr
      intro hm
      simp at hm
      rcases hm with hm | hm
      · rcases hremove _ hm with ⟨i, hi⟩
        exact partName_ne_self _ i hi.symm
      · exact mp3Name_ne_m4aName c env.timestamp hm
    | some e =>
      simp only [Option.some.injEq] at htr
      subst htr
      intro hm
      simp at hm
      rcases hm with hm | hm
      · rcases hremove _ hm with ⟨i, hi⟩
        exact partName_ne_self _ i hi.symm
      · exact mp3Name_ne_m4aName c env.timestamp hm

/-- Witness for C9 at a concrete over-budget environment: the concrete trace
of the request does not remove the source mp3. -/
theorem handleMessage_split_preserves_source_witness :
    Effect.removeFile (mp3Name 7 0) ∉
      [Effect.sendText 7 ackReply, Effect.runYtDlp "youtu.be/x",
       Effect.runFfmpeg (mp3Name 7 0) 3136,
       Effect.probeFile (partName (mp3Name 7 0) 0),
       Effect.removeFile (m4aName 7 0)] :=
  handleMessage_split_preserves_source
    { env0 with fileSize := fun _ => some (maxFileSize + 1) }
    2 "youtu.be/x" 7 (maxFileSize + 1) (by decide) rfl rfl (by decide)
    (fun _ => rfl) _ (by rfl)

end YtBot
